import Mathlib

/-!
Verification development for the live stock tracker's ingestion-and-query core.

The embedding models, from the source:
* `backend/db.py` / `worker.init_db`: the sqlite `quotes` table, as a list of
  rows in insertion order; the autoincrement `id` is assigned at insert time
  and is strictly increasing (modelled as `length + 1`).
* `backend/main.py`: the `latest` and `history` query handlers, including the
  FastAPI `Query(500, ge=1, le=10000)` validation of `limit`.
* `worker.py`: `save_quote` and `run_loop` (the Poller); the sqlite connection
  is a durable medium that may fail, modelled by a `saveFails` oracle, and the
  wall clock `int(time.time())` is an explicit `ts` argument.
* `data_fetcher.py`: `get_latest_price_yf`, with the two yfinance calls
  (`yf.download` and `Ticker.history`) modelled as provider-result arguments:
  either the provider raises, or it returns a (possibly empty) series of
  Close prices.

Prices are modelled as integers (scaled ticks): no claim performs arithmetic
on a price, they are only stored, returned and compared to zero.

SQL `ORDER BY ts DESC` on the `quotes` table is modelled as sorting by
timestamp descending with ties in descending `id` order; sqlite serves this
query from the `ts` index scanned backwards, which yields equal-`ts` rows in
descending rowid order.
-/

deriving instance DecidableEq for Except

namespace StockTracker

/-- Python `str.upper()`: upper-case every character. Note there is no
trimming anywhere in the source: `.strip()` is never called. -/
def upper (s : String) : String := ⟨s.data.map Char.toUpper⟩

/-- One row of the `quotes` table: `(id, symbol, ts, price)`. -/
structure Quote where
  id : Nat
  symbol : String
  ts : Nat
  price : Int
deriving DecidableEq

/-- The `quotes` table, in insertion (rowid) order. -/
abbrev Store := List Quote

/-- The sqlite `INSERT INTO quotes (symbol, ts, price) VALUES (?, ?, ?)`:
appends one row, assigning the next autoincrement id. No check of any kind
is performed on `price` at this boundary. -/
def insert (db : Store) (symbol : String) (ts : Nat) (price : Int) : Store :=
  db ++ [{ id := db.length + 1, symbol := symbol, ts := ts, price := price }]

/-- The worker's `save_quote`: upper-cases the symbol and inserts one row.
The timestamp `int(time.time())` is passed in explicitly. -/
def save_quote (db : Store) (symbol : String) (ts : Nat) (price : Int) : Store :=
  insert db (upper symbol) ts price

/-- Error signals of the query handlers: HTTP 404 (`HTTPException(404)`) and
the FastAPI validation rejection for an out-of-range `limit`. -/
inductive ApiError where
  | notFound
  | validation
deriving DecidableEq

/-- The rows the query `filter(Quote.symbol == symbol.upper())` selects,
in table order. -/
def rowsFor (db : Store) (symbol : String) : List Quote :=
  db.filter fun q => q.symbol == upper symbol

/-- The row order produced by `ORDER BY ts DESC`: timestamp descending,
equal timestamps in descending id order (the backward `ts`-index scan). -/
def tsDescLE (a b : Quote) : Prop :=
  b.ts < a.ts ∨ (a.ts = b.ts ∧ b.id ≤ a.id)

instance (a b : Quote) : Decidable (tsDescLE a b) := by
  unfold tsDescLE; exact inferInstance

instance : IsTotal Quote tsDescLE :=
  ⟨fun a b => by unfold tsDescLE; omega⟩

instance : IsTrans Quote tsDescLE :=
  ⟨fun a b c h1 h2 => by unfold tsDescLE at h1 h2 ⊢; omega⟩

/-- Result list of `ORDER BY ts DESC` over a set of rows. -/
def orderedTsDesc (rows : List Quote) : List Quote :=
  rows.insertionSort tsDescLE

/-- The `/latest/{symbol}` handler: first row of the symbol's rows ordered
by `ts DESC`, or a 404 when there is none. -/
def latest (db : Store) (symbol : String) : Except ApiError Quote :=
  match orderedTsDesc (rowsFor db symbol) with
  | [] => .error .notFound
  | q :: _ => .ok q

/-- The response item `PricePoint(ts=..., price=...)`. -/
structure PricePoint where
  ts : Nat
  price : Int
deriving DecidableEq

/-- The response model `HistoryOut(symbol=..., points=...)`. -/
structure HistoryOut where
  symbol : String
  points : List PricePoint
deriving DecidableEq

/-- Body of the `/history/{symbol}` handler after validation: take the
first `limit` rows of the `ts DESC` ordering, then `reversed(rows)` into
ascending points. -/
def history (db : Store) (symbol : String) (limit : Nat) : HistoryOut :=
  { symbol := upper symbol,
    points := ((orderedTsDesc (rowsFor db symbol)).take limit).reverse.map
      fun r => { ts := r.ts, price := r.price } }

/-- FastAPI's handling of `limit: int = Query(500, ge=1, le=10000)`: a missing
parameter defaults to 500; an out-of-range value is rejected. -/
def validateLimit : Option Int → Except ApiError Int
  | none => .ok 500
  | some n => if 1 ≤ n ∧ n ≤ 10000 then .ok n else .error .validation

/-- The `/history/{symbol}` endpoint including the `limit` validation. -/
def historyEndpoint (db : Store) (symbol : String) (limitParam : Option Int) :
    Except ApiError HistoryOut :=
  (validateLimit limitParam).map fun n => history db symbol n.toNat

/-- Outcome of one yfinance call: the provider either raises, or returns a
(possibly empty) series of Close prices. -/
abbrev ProviderResult := Except Unit (List Int)

/-- The adapter `get_latest_price_yf`: try the primary `yf.download` series
and return its last Close; on an empty series fall back to the
`Ticker.history` snapshot; convert a raise from either call into `none`.
A raise from the primary call skips the fallback (the `except` wraps both). -/
def get_latest_price_yf (download : ProviderResult)
    (histSnapshot : ProviderResult) : Option Int :=
  match download with
  | .error _ => none
  | .ok df =>
    match df.getLast? with
    | some close => some close
    | none =>
      match histSnapshot with
      | .error _ => none
      | .ok h => h.getLast?

/-- The worker's tracked symbols. -/
def SYMBOLS : List String := ["AAPL", "MSFT", "TSLA"]

/-- The error sqlite raises when the durable medium fails during an insert. -/
inductive StoreErr where
  | sqliteError
deriving DecidableEq

/-- One pass of `run_loop`'s inner `for sym in SYMBOLS` over a remaining
symbol list: a `None` fetch result is skipped; otherwise `save_quote` runs,
and if the medium fails there (`saveFails`), the exception propagates — the
rest of the cycle is abandoned and the error escapes. -/
def runCycleAux (fetch : String → Option Int) (saveFails : String → Bool)
    (ts : Nat) : Store → List String → Store × Option StoreErr
  | db, [] => (db, none)
  | db, sym :: rest =>
    match fetch sym with
    | none => runCycleAux fetch saveFails ts db rest
    | some price =>
      if saveFails sym then (db, some .sqliteError)
      else runCycleAux fetch saveFails ts (save_quote db sym ts price) rest

/-- One full Poller cycle over `SYMBOLS`. -/
def runCycle (fetch : String → Option Int) (saveFails : String → Bool)
    (ts : Nat) (db : Store) : Store × Option StoreErr :=
  runCycleAux fetch saveFails ts db SYMBOLS

/-- The `while True` loop of `run_loop`, run for a given number of cycles
(`k` indexes the cycle, feeding the per-cycle fetch results, medium state
and clock). Only `KeyboardInterrupt` is caught in the source, so a store
error escaping a cycle terminates the loop. -/
def runLoop (fetch : Nat → String → Option Int) (saveFails : Nat → String → Bool)
    (clock : Nat → Nat) : Nat → Nat → Store → Store × Option StoreErr
  | 0, _, db => (db, none)
  | n + 1, k, db =>
    match runCycle (fetch k) (saveFails k) (clock k) db with
    | (db2, some e) => (db2, some e)
    | (db2, none) => runLoop fetch saveFails clock n (k + 1) db2

/-- The observable fields of a row, ignoring the autoincrement id. -/
def quoteData (q : Quote) : String × Nat × Int := (q.symbol, q.ts, q.price)

/-- Invariant: every stored row's symbol is fixed by upper-casing. -/
def UpperSymbols (db : Store) : Prop := ∀ q ∈ db, q.symbol = upper q.symbol

/-! Basic facts about symbol normalization. -/

theorem char_toUpper_ofNat_fixed (m : Nat) (h1 : 65 ≤ m) (h2 : m ≤ 90) :
    Char.toUpper (Char.ofNat m) = Char.ofNat m := by
  interval_cases m <;> decide

theorem char_toUpper_idem (c : Char) : c.toUpper.toUpper = c.toUpper := by
  have hdef : c.toUpper
      = if c.toNat ≥ 97 ∧ c.toNat ≤ 122 then Char.ofNat (c.toNat - 32) else c := rfl
  by_cases hc : c.toNat ≥ 97 ∧ c.toNat ≤ 122
  · rw [hdef, if_pos hc]
    exact char_toUpper_ofNat_fixed (c.toNat - 32) (by omega) (by omega)
  · rw [show c.toUpper = c from by rw [hdef, if_neg hc]]
    rw [hdef, if_neg hc]

theorem upper_idem (s : String) : upper (upper s) = upper s := by
  unfold upper
  apply congrArg String.mk
  rw [List.map_map]
  exact List.map_congr_left fun c _ => char_toUpper_idem c

theorem rowsFor_upper (db : Store) (s : String) :
    rowsFor db (upper s) = rowsFor db s := by
  unfold rowsFor
  rw [upper_idem]

/-! Claim theorems. -/

/-- C3: a history request with `limit` outside `[1, 10000]` (in particular
`limit = 0` and `limit = 10001`) is rejected with a validation error and never
silently clamped, `limit = 1` and `limit = 10000` succeed, and an unspecified
`limit` defaults to 500. -/
theorem limit_validation (db : Store) (s : String) :
    historyEndpoint db s (some 0) = .error .validation ∧
    historyEndpoint db s (some 10001) = .error .validation ∧
    historyEndpoint db s (some 1) = .ok (history db s 1) ∧
    historyEndpoint db s (some 10000) = .ok (history db s 10000) ∧
    historyEndpoint db s none = .ok (history db s 500) ∧
    (∀ n : Int, n < 1 ∨ 10000 < n → historyEndpoint db s (some n) = .error .validation) := by
  refine ⟨rfl, rfl, rfl, rfl, rfl, ?_⟩
  intro n hn
  show Except.map (fun n => history db s n.toNat)
      (if 1 ≤ n ∧ n ≤ 10000 then Except.ok n else Except.error ApiError.validation)
    = Except.error ApiError.validation
  rw [if_neg (by omega)]
  rfl

/-- Witness for C3 at a concrete out-of-range limit. -/
theorem limit_validation_witness :
    ((-5 : Int) < 1 ∨ 10000 < (-5 : Int)) ∧
      historyEndpoint [] "AAPL" (some (-5)) = .error .validation :=
  ⟨Or.inl (by decide), (limit_validation [] "AAPL").2.2.2.2.2 (-5) (Or.inl (by decide))⟩

/-- C7: the adapter returns either a price or an explicit no-data `none` and,
being a total function, never lets an error escape; it takes the last Close of
the primary series when that series is non-empty, falls back to the snapshot
when the primary succeeds but is empty, and converts a provider raise from
either call into `none` (a raise from the primary skips the fallback, since
the `except` wraps both calls). -/
theorem fetch_spec (download histSnapshot : ProviderResult) :
    (∀ e, download = .error e → get_latest_price_yf download histSnapshot = none) ∧
    (∀ df close, download = .ok df → df.getLast? = some close →
        get_latest_price_yf download histSnapshot = some close) ∧
    (∀ e, download = .ok [] → histSnapshot = .error e →
        get_latest_price_yf download histSnapshot = none) ∧
    (∀ h, download = .ok [] → histSnapshot = .ok h →
        get_latest_price_yf download histSnapshot = h.getLast?) ∧
    (get_latest_price_yf download histSnapshot = none ∨
      ∃ p, get_latest_price_yf download histSnapshot = some p) := by
  refine ⟨?_, ?_, ?_, ?_, ?_⟩
  · rintro e rfl; rfl
  · rintro df close rfl hlast
    show (match df.getLast? with
      | some close => some close
      | none =>
        match histSnapshot with
        | .error _ => none
        | .ok h => h.getLast?) = some close
    rw [hlast]
  · rintro e rfl rfl; rfl
  · rintro h rfl rfl; rfl
  · cases hres : get_latest_price_yf download histSnapshot with
    | none => exact Or.inl rfl
    | some p => exact Or.inr ⟨p, rfl⟩

/-- Witness for C7: an empty primary series falls back to the snapshot. -/
theorem fetch_spec_witness :
    get_latest_price_yf (.ok []) (.ok [3, 4]) = ([3, 4] : List Int).getLast? :=
  (fetch_spec (.ok []) (.ok [3, 4])).2.2.2.1 [3, 4] rfl rfl

/-- C8: a history request for a symbol with zero stored rows succeeds with the
normalized symbol and an empty point list, while `latest` answers 404 for the
same symbol — the deliberate asymmetry between the two handlers. -/
theorem history_empty_success (db : Store) (s : String) (h : rowsFor db s = []) :
    historyEndpoint db s none = .ok { symbol := upper s, points := [] } ∧
    latest db s = .error .notFound := by
  constructor
  · unfold historyEndpoint validateLimit history
    rw [h]
    rfl
  · unfold latest
    rw [h]
    rfl

/-- Witness for C8 on a store that holds rows only for another symbol. -/
theorem history_empty_success_witness :
    rowsFor [{ id := 1, symbol := "MSFT", ts := 100, price := 3 }] "GOOG" = [] ∧
      (historyEndpoint [{ id := 1, symbol := "MSFT", ts := 100, price := 3 }] "GOOG" none
          = .ok { symbol := upper "GOOG", points := [] } ∧
        latest [{ id := 1, symbol := "MSFT", ts := 100, price := 3 }] "GOOG"
          = .error .notFound) :=
  ⟨by decide, history_empty_success [{ id := 1, symbol := "MSFT", ts := 100, price := 3 }]
    "GOOG" (by decide)⟩

/-- C1: for a symbol with at least one stored row, `latest` returns a stored
row of that symbol holding the maximum timestamp, ties broken by the highest
id (the most recent insert); for a symbol with zero rows it answers 404. -/
theorem latest_spec (db : Store) (s : String) :
    (rowsFor db s = [] → latest db s = .error .notFound) ∧
    (rowsFor db s ≠ [] → ∃ q, latest db s = .ok q ∧ q ∈ rowsFor db s ∧
        ∀ r ∈ rowsFor db s, r.ts ≤ q.ts ∧ (r.ts = q.ts → r.id ≤ q.id)) := by
  constructor
  · intro h
    unfold latest
    rw [show orderedTsDesc (rowsFor db s) = [] from by rw [h]; rfl]
  · intro h
    have hperm : List.Perm (orderedTsDesc (rowsFor db s)) (rowsFor db s) :=
      List.perm_insertionSort _ _
    have hsorted : List.Sorted tsDescLE (orderedTsDesc (rowsFor db s)) :=
      List.sorted_insertionSort _ _
    cases hs : orderedTsDesc (rowsFor db s) with
    | nil =>
      rw [hs] at hperm
      exact absurd hperm.symm.eq_nil h
    | cons q t =>
      rw [hs] at hperm hsorted
      refine ⟨q, ?_, ?_, ?_⟩
      · unfold latest
        rw [hs]
      · exact hperm.mem_iff.mp (List.mem_cons_self q t)
      · intro r hr
        rcases List.mem_cons.mp (hperm.mem_iff.mpr hr) with rfl | hrt
        · exact ⟨Nat.le_refl _, fun _ => Nat.le_refl _⟩
        · have hle := List.rel_of_sorted_cons hsorted r hrt
          unfold tsDescLE at hle
          exact ⟨by omega, fun he => by omega⟩

/-- Witness for C1 on a store with a timestamp tie: the row inserted later
(the higher id) wins. -/
theorem latest_spec_witness :
    rowsFor [{ id := 1, symbol := "AAPL", ts := 100, price := 5 },
             { id := 2, symbol := "AAPL", ts := 100, price := 7 },
             { id := 3, symbol := "AAPL", ts := 90, price := 6 }] "aapl" ≠ [] ∧
      ∃ q, latest [{ id := 1, symbol := "AAPL", ts := 100, price := 5 },
                   { id := 2, symbol := "AAPL", ts := 100, price := 7 },
                   { id := 3, symbol := "AAPL", ts := 90, price := 6 }] "aapl" = .ok q ∧
        q ∈ rowsFor [{ id := 1, symbol := "AAPL", ts := 100, price := 5 },
                     { id := 2, symbol := "AAPL", ts := 100, price := 7 },
                     { id := 3, symbol := "AAPL", ts := 90, price := 6 }] "aapl" ∧
        ∀ r ∈ rowsFor [{ id := 1, symbol := "AAPL", ts := 100, price := 5 },
                       { id := 2, symbol := "AAPL", ts := 100, price := 7 },
                       { id := 3, symbol := "AAPL", ts := 90, price := 6 }] "aapl",
          r.ts ≤ q.ts ∧ (r.ts = q.ts → r.id ≤ q.id) :=
  ⟨by decide,
    (latest_spec [{ id := 1, symbol := "AAPL", ts := 100, price := 5 },
                  { id := 2, symbol := "AAPL", ts := 100, price := 7 },
                  { id := 3, symbol := "AAPL", ts := 90, price := 6 }] "aapl").2 (by decide)⟩

/-- C2: `history` returns at most `limit` points; the points are ascending by
timestamp; they are exactly the image of the first `limit` rows of the
`ts DESC` ordering (so each selected row is at least as recent — in the
(timestamp, id) order — as every unselected row of the symbol, and selected
plus unselected rows together are exactly the symbol's rows); and when
`limit` covers the symbol's row count the full history is returned. -/
theorem history_spec (db : Store) (s : String) (limit : Nat) :
    (history db s limit).points.length ≤ limit ∧
    (history db s limit).points.Pairwise (fun p1 p2 => p1.ts ≤ p2.ts) ∧
    (history db s limit).points
      = ((orderedTsDesc (rowsFor db s)).take limit).reverse.map
          (fun r => { ts := r.ts, price := r.price }) ∧
    (∀ a ∈ (orderedTsDesc (rowsFor db s)).take limit,
      ∀ b ∈ (orderedTsDesc (rowsFor db s)).drop limit,
        b.ts < a.ts ∨ (b.ts = a.ts ∧ b.id ≤ a.id)) ∧
    List.Perm ((orderedTsDesc (rowsFor db s)).take limit
        ++ (orderedTsDesc (rowsFor db s)).drop limit) (rowsFor db s) ∧
    ((rowsFor db s).length ≤ limit →
      List.Perm ((history db s limit).points.map fun p => (p.ts, p.price))
        ((rowsFor db s).map fun r => (r.ts, r.price))) := by
  have hsorted : List.Sorted tsDescLE (orderedTsDesc (rowsFor db s)) :=
    List.sorted_insertionSort _ _
  refine ⟨?_, ?_, rfl, ?_, ?_, ?_⟩
  · show (((orderedTsDesc (rowsFor db s)).take limit).reverse.map
        (fun r => ({ ts := r.ts, price := r.price } : PricePoint))).length ≤ limit
    rw [List.length_map, List.length_reverse, List.length_take]
    omega
  · show (((orderedTsDesc (rowsFor db s)).take limit).reverse.map
        (fun r => ({ ts := r.ts, price := r.price } : PricePoint))).Pairwise
        fun p1 p2 => p1.ts ≤ p2.ts
    rw [List.pairwise_map, List.pairwise_reverse]
    refine List.Pairwise.imp ?_ (hsorted.sublist (List.take_sublist _ _))
    intro a b hab
    unfold tsDescLE at hab
    show b.ts ≤ a.ts
    omega
  · intro a ha b hb
    have hab := List.Sorted.rel_of_mem_take_of_mem_drop hsorted ha hb
    unfold tsDescLE at hab
    omega
  · rw [List.take_append_drop]
    exact List.perm_insertionSort _ _
  · intro hlen
    have htake_all : (orderedTsDesc (rowsFor db s)).take limit
        = orderedTsDesc (rowsFor db s) := by
      apply List.take_of_length_le
      rw [orderedTsDesc, List.length_insertionSort]
      exact hlen
    show List.Perm ((((orderedTsDesc (rowsFor db s)).take limit).reverse.map
        (fun r => ({ ts := r.ts, price := r.price } : PricePoint))).map
          fun p => (p.ts, p.price)) _
    rw [htake_all, List.map_map]
    have hp : List.Perm (orderedTsDesc (rowsFor db s)).reverse (rowsFor db s) :=
      (List.reverse_perm _).trans (List.perm_insertionSort _ _)
    exact hp.map _

/-- Witness for C2: with a limit covering all three stored rows of the
symbol, the full history comes back. -/
theorem history_spec_witness :
    (rowsFor [{ id := 1, symbol := "AAPL", ts := 100, price := 5 },
              { id := 2, symbol := "MSFT", ts := 90, price := 3 },
              { id := 3, symbol := "AAPL", ts := 80, price := 4 }] "aapl").length ≤ 10 ∧
      List.Perm ((history [{ id := 1, symbol := "AAPL", ts := 100, price := 5 },
                           { id := 2, symbol := "MSFT", ts := 90, price := 3 },
                           { id := 3, symbol := "AAPL", ts := 80, price := 4 }] "aapl" 10).points.map
          fun p => (p.ts, p.price))
        ((rowsFor [{ id := 1, symbol := "AAPL", ts := 100, price := 5 },
                   { id := 2, symbol := "MSFT", ts := 90, price := 3 },
                   { id := 3, symbol := "AAPL", ts := 80, price := 4 }] "aapl").map
          fun r => (r.ts, r.price)) :=
  ⟨by decide,
    (history_spec [{ id := 1, symbol := "AAPL", ts := 100, price := 5 },
                   { id := 2, symbol := "MSFT", ts := 90, price := 3 },
                   { id := 3, symbol := "AAPL", ts := 80, price := 4 }] "aapl" 10).2.2.2.2.2
      (by decide)⟩

/-- C4 counterexample: the handlers upper-case but never trim, so a symbol
with surrounding spaces does not resolve to the records stored under the
trimmed symbol, refuting the claim on a concrete store. -/
theorem normalization_no_trim_cex :
    latest [{ id := 1, symbol := "AAPL", ts := 100, price := 5 }] "aapl"
        = .ok { id := 1, symbol := "AAPL", ts := 100, price := 5 } ∧
    latest [{ id := 1, symbol := "AAPL", ts := 100, price := 5 }] "AAPL"
        = .ok { id := 1, symbol := "AAPL", ts := 100, price := 5 } ∧
    latest [{ id := 1, symbol := "AAPL", ts := 100, price := 5 }] " AAPL "
        = .error .notFound := by
  decide

/-- C4 amended: every symbol argument is normalized by upper-casing only (no
whitespace trimming exists in the code), both before storage and before every
query, so queries differing only in letter case resolve to the same stored
records, while a symbol with surrounding spaces resolves to the distinct
records stored under the untrimmed key. -/
theorem normalization_upper_only (db : Store) (s : String) (limit : Nat)
    (ts : Nat) (p : Int) :
    rowsFor db (upper s) = rowsFor db s ∧
    latest db (upper s) = latest db s ∧
    history db (upper s) limit = history db s limit ∧
    save_quote db (upper s) ts p = save_quote db s ts p := by
  refine ⟨rowsFor_upper db s, ?_, ?_, ?_⟩
  · unfold latest
    rw [rowsFor_upper]
  · unfold history
    rw [rowsFor_upper, upper_idem]
  · unfold save_quote
    rw [upper_idem]

/-- C10: every row written through `save_quote` has an upper-cased symbol —
the new row's symbol is exactly `upper s`, and the invariant that each stored
symbol is fixed by upper-casing is preserved by every insert. -/
theorem write_path_upper_invariant (db : Store) (s : String) (ts : Nat) (p : Int)
    (h : UpperSymbols db) :
    UpperSymbols (save_quote db s ts p) ∧
    ∀ q ∈ save_quote db s ts p, q ∉ db → q.symbol = upper s := by
  constructor
  · intro q hq
    simp only [save_quote, insert] at hq
    rcases List.mem_append.mp hq with hq | hq
    · exact h q hq
    · have hq' := List.mem_singleton.mp hq
      subst hq'
      show upper s = upper (upper s)
      exact (upper_idem s).symm
  · intro q hq hnot
    simp only [save_quote, insert] at hq
    rcases List.mem_append.mp hq with hq | hq
    · exact absurd hq hnot
    · have hq' := List.mem_singleton.mp hq
      subst hq'
      rfl

/-- Witness for C10 on a store already holding an upper-cased row. -/
theorem write_path_upper_invariant_witness :
    UpperSymbols [{ id := 1, symbol := "AAPL", ts := 50, price := 2 }] ∧
      (UpperSymbols (save_quote [{ id := 1, symbol := "AAPL", ts := 50, price := 2 }]
          "tsla" 100 9) ∧
        ∀ q ∈ save_quote [{ id := 1, symbol := "AAPL", ts := 50, price := 2 }] "tsla" 100 9,
          q ∉ [{ id := 1, symbol := "AAPL", ts := 50, price := 2 }] →
            q.symbol = upper "tsla") := by
  have hin : UpperSymbols [{ id := 1, symbol := "AAPL", ts := 50, price := 2 }] := by
    unfold UpperSymbols
    decide
  exact ⟨hin, write_path_upper_invariant _ "tsla" 100 9 hin⟩

/-- C6: in a cycle where saving never fails, exactly the symbols whose fetch
succeeds get a new store record (in symbol order, with the fetched price and
the cycle timestamp, under the upper-cased symbol), failing symbols are
skipped without aborting the cycle, and the loop runs every cycle to the end
without terminating on an error. -/
theorem cycle_partial_fetch_failure
    (fetch : Nat → String → Option Int) (saveFails : Nat → String → Bool)
    (clock : Nat → Nat) (hsave : ∀ k s, saveFails k s = false) :
    (∀ k ts db syms,
      (runCycleAux (fetch k) (saveFails k) ts db syms).2 = none ∧
      (runCycleAux (fetch k) (saveFails k) ts db syms).1.map quoteData
        = db.map quoteData
          ++ syms.filterMap fun s => (fetch k s).map fun p => (upper s, ts, p)) ∧
    (∀ n k db, (runLoop fetch saveFails clock n k db).2 = none) := by
  have hcycle : ∀ (f : String → Option Int) (sf : String → Bool),
      (∀ s, sf s = false) → ∀ (ts : Nat) (syms : List String) (db : Store),
      (runCycleAux f sf ts db syms).2 = none ∧
      (runCycleAux f sf ts db syms).1.map quoteData
        = db.map quoteData
          ++ syms.filterMap fun s => (f s).map fun p => (upper s, ts, p) := by
    intro f sf hsf ts syms
    induction syms with
    | nil =>
      intro db
      exact ⟨rfl, by simp [runCycleAux]⟩
    | cons sym rest ih =>
      intro db
      cases hf : f sym with
      | none =>
        have hstep : runCycleAux f sf ts db (sym :: rest)
            = runCycleAux f sf ts db rest := by
          simp [runCycleAux, hf]
        rw [hstep]
        rcases ih db with ⟨h1, h2⟩
        refine ⟨h1, ?_⟩
        rw [h2]
        simp [List.filterMap_cons, hf]
      | some p =>
        have hstep : runCycleAux f sf ts db (sym :: rest)
            = runCycleAux f sf ts (save_quote db sym ts p) rest := by
          simp [runCycleAux, hf, hsf sym]
        rw [hstep]
        rcases ih (save_quote db sym ts p) with ⟨h1, h2⟩
        refine ⟨h1, ?_⟩
        rw [h2]
        simp [save_quote, insert, quoteData, List.filterMap_cons, hf]
  have hloop : ∀ n k db, (runLoop fetch saveFails clock n k db).2 = none := by
    intro n
    induction n with
    | zero => intro k db; rfl
    | succ m ih =>
      intro k db
      have h2 : (runCycle (fetch k) (saveFails k) (clock k) db).2 = none :=
        (hcycle (fetch k) (saveFails k) (hsave k) (clock k) SYMBOLS db).1
      rcases hres : runCycle (fetch k) (saveFails k) (clock k) db with ⟨db2, oe⟩
      rw [hres] at h2
      cases oe with
      | some e => exact absurd h2 (by simp)
      | none =>
        show (runLoop fetch saveFails clock (m + 1) k db).2 = none
        simp only [runLoop]
        rw [hres]
        exact ih (k + 1) db2
  exact ⟨fun k ts db syms => hcycle (fetch k) (saveFails k) (hsave k) ts syms db, hloop⟩

/-- Witness for C6: of the three tracked symbols, only the MSFT fetch fails,
and exactly AAPL and TSLA rows are appended. -/
theorem cycle_partial_fetch_failure_witness :
    (∀ (k : Nat) (s : String), (fun (_ : Nat) (_ : String) => false) k s = false) ∧
      (runCycleAux (fun s => if s == "MSFT" then (none : Option Int) else some 3)
          (fun _ => false) 100 [] SYMBOLS).1.map quoteData
        = ([] : Store).map quoteData
          ++ SYMBOLS.filterMap fun s =>
              (if s == "MSFT" then (none : Option Int) else some 3).map
                fun p => (upper s, 100, p) :=
  ⟨fun _ _ => rfl,
    ((cycle_partial_fetch_failure
        (fun _ s => if s == "MSFT" then (none : Option Int) else some 3)
        (fun _ _ => false) (fun _ => 15) (fun _ _ => rfl)).1 0 100 [] SYMBOLS).2⟩

/-- C5 counterexample: all fetches succeed but the medium fails AAPL's
insert; after one such failure — even with fuel for three cycles — no
record is stored (the remaining symbols of the cycle were never sampled)
and the loop is terminated by the escaped store error, refuting the
logged-and-skipped behaviour the claim states. -/
theorem insert_failure_kills_loop_cex :
    runLoop (fun _ _ => some 5) (fun _ s => s == "AAPL") (fun _ => 100) 3 0 []
      = ([], some StoreErr.sqliteError) := by
  decide

/-- C5 amended: a store-insert failure is not caught by the Poller: when the
first fetch-succeeding symbol's save fails, the cycle stops there — the
result is independent of the symbols after it, which are never sampled —
and any cycle that escapes with a store error terminates the loop
immediately. -/
theorem insert_failure_aborts (fetch : String → Option Int) (saveFails : String → Bool)
    (ts : Nat) (db : Store) (pre : List String) (sym : String) (p : Int)
    (hpre : ∀ x ∈ pre, fetch x = none ∨ saveFails x = false)
    (hf : fetch sym = some p) (hfail : saveFails sym = true) :
    (∀ post, runCycleAux fetch saveFails ts db (pre ++ sym :: post)
        = ((runCycleAux fetch saveFails ts db pre).1, some StoreErr.sqliteError)) ∧
    (∀ (fetchL : Nat → String → Option Int) (saveFailsL : Nat → String → Bool)
        (clock : Nat → Nat) (n k : Nat) (db0 db1 : Store),
      runCycle (fetchL k) (saveFailsL k) (clock k) db0 = (db1, some StoreErr.sqliteError) →
      runLoop fetchL saveFailsL clock (n + 1) k db0 = (db1, some StoreErr.sqliteError)) := by
  constructor
  · have main : ∀ (pre2 : List String),
        (∀ x ∈ pre2, fetch x = none ∨ saveFails x = false) → ∀ (db2 : Store) (post : List String),
        runCycleAux fetch saveFails ts db2 (pre2 ++ sym :: post)
          = ((runCycleAux fetch saveFails ts db2 pre2).1, some StoreErr.sqliteError) := by
      intro pre2
      induction pre2 with
      | nil =>
        intro _ db2 post
        simp [runCycleAux, hf, hfail]
      | cons x xs ih =>
        intro hpre2 db2 post
        have hx := hpre2 x (List.mem_cons_self x xs)
        have hpre' : ∀ y ∈ xs, fetch y = none ∨ saveFails y = false :=
          fun y hy => hpre2 y (List.mem_cons_of_mem x hy)
        cases hfx : fetch x with
        | none =>
          rw [List.cons_append]
          simp only [runCycleAux, hfx]
          exact ih hpre' db2 post
        | some px =>
          rcases hx with hx | hx
          · rw [hfx] at hx
            cases hx
          · rw [List.cons_append]
            simp only [runCycleAux, hfx, hx, Bool.false_eq_true, if_false]
            exact ih hpre' (save_quote db2 x ts px) post
    exact fun post => main pre hpre db post
  · intro fetchL saveFailsL clock n k db0 db1 hcyc
    show runLoop fetchL saveFailsL clock (n + 1) k db0 = (db1, some StoreErr.sqliteError)
    simp only [runLoop]
    rw [hcyc]

/-- Witness for C5's amended theorem: AAPL's save fails at the head of the
cycle, and the result is the unchanged store plus the error, with MSFT and
TSLA unsampled. -/
theorem insert_failure_aborts_witness :
    runCycleAux (fun _ => some 5) (fun s => s == "AAPL") 100 []
        ([] ++ "AAPL" :: ["MSFT", "TSLA"])
      = ((runCycleAux (fun _ => some 5) (fun s => s == "AAPL") 100 [] []).1,
          some StoreErr.sqliteError) :=
  (insert_failure_aborts (fun _ => some 5) (fun s => s == "AAPL") 100 [] [] "AAPL" 5
      (by simp) rfl (by decide)).1 ["MSFT", "TSLA"]

/-- C9 counterexample: the fetch hands the Poller a negative price and the
Poller inserts it into the store unchanged — it is not a gate against
non-positive prices. -/
theorem poller_no_price_gate_cex :
    runCycle (fun s => if s == "AAPL" then some (-7) else none) (fun _ => false) 100 []
        = ([{ id := 1, symbol := "AAPL", ts := 100, price := -7 }], none) ∧
      (-7 : Int) ≤ 0 := by
  decide

/-- C9 amended: the store's insert accepts any price value with no positivity
check, and the Poller does not gate prices either: any fetched price,
non-positive values included, is passed to `save_quote` unchanged; the only
filter on the write path is the fetch returning no data at all. -/
theorem no_price_gate (db : Store) (s : String) (ts : Nat) (p : Int)
    (fetch : String → Option Int) (saveFails : String → Bool) (rest : List String)
    (hf : fetch s = some p) :
    (insert db s ts p).map (fun q => q.price) = db.map (fun q => q.price) ++ [p] ∧
    (saveFails s = false →
      runCycleAux fetch saveFails ts db (s :: rest)
        = runCycleAux fetch saveFails ts (save_quote db s ts p) rest) ∧
    (∀ sym, fetch sym = none → ∀ (syms : List String) (db2 : Store),
      runCycleAux fetch saveFails ts db2 (sym :: syms)
        = runCycleAux fetch saveFails ts db2 syms) := by
  refine ⟨by simp [insert], ?_, ?_⟩
  · intro hsf
    simp [runCycleAux, hf, hsf]
  · intro sym hnone syms db2
    simp [runCycleAux, hnone]

/-- Witness for C9's amended theorem at a concrete negative price. -/
theorem no_price_gate_witness :
    ((fun x => if x == "AAPL" then some (-7 : Int) else none) "AAPL" = some (-7)) ∧
      (insert [] "AAPL" 100 (-7)).map (fun q => q.price)
        = ([] : Store).map (fun q => q.price) ++ [(-7 : Int)] :=
  ⟨by decide,
    (no_price_gate [] "AAPL" 100 (-7) (fun x => if x == "AAPL" then some (-7) else none)
        (fun _ => false) [] (by decide)).1⟩

end StockTracker
